import Mathlib

/-!
Verification development for the MaxScale core: the readconnroute
connection router (`server/modules/routing/readconnroute/readconnroute.cc`),
the monitor engine and its journal (`server/core/monitor.cc`), and the
replication stream processor (`replicator/src/replicator.cc`).

Machine integers are modelled as `Nat` with explicit masks where overflow
matters; fallible code returns `Option`.
-/

namespace MaxScale

/-! ### Server status bits

`server.h` is not among the sources; the status word's bits are modelled as
distinct powers of two for the flag set the repository names:
RUNNING, MAINT, BEING_DRAINED, MASTER, SLAVE, JOINED, NDB, WAS_MASTER,
AUTH_ERROR, DISK_SPACE_EXHAUSTED. No claim depends on the concrete values,
only on the bits being distinct. -/

def SERVER_RUNNING : Nat := 1
def SERVER_MAINT : Nat := 2
def SERVER_BEING_DRAINED : Nat := 4
def SERVER_MASTER : Nat := 8
def SERVER_SLAVE : Nat := 16
def SERVER_JOINED : Nat := 32
def SERVER_NDB : Nat := 64
def SERVER_WAS_MASTER : Nat := 128
def SERVER_AUTH_ERROR : Nat := 256
def SERVER_DISK_SPACE_EXHAUSTED : Nat := 512

/-- Modelled from the spec: `server_is_running` lives in the absent
`server.h`; the spec's candidate rule reads "AND RUNNING is set". -/
def server_is_running (status : Nat) : Bool :=
  decide (status &&& SERVER_RUNNING ≠ 0)

/-- Modelled from the spec: `server_is_in_maint` from the absent `server.h`;
the MAINT role flag marks a backend in maintenance. -/
def server_is_in_maint (status : Nat) : Bool :=
  decide (status &&& SERVER_MAINT ≠ 0)

/-- Modelled from the spec: `server_is_down` is the negation of running. -/
def server_is_down (status : Nat) : Bool :=
  !server_is_running status

/-- Modelled from the spec: `server_is_master` from the absent `server.h`;
the comment on `get_root_master` in readconnroute.cc says the server "must
be running, not in maintenance and have the master bit set". -/
def server_is_master (status : Nat) : Bool :=
  server_is_running status && !server_is_in_maint status
    && decide (status &&& SERVER_MASTER ≠ 0)

/-! ### Generic bit lemmas used to reason about the packed filter word -/

theorem land_or_subset {a b c d : Nat} (h1 : a &&& c = c) (h2 : b &&& d = d) :
    (a ||| b) &&& (c ||| d) = c ||| d := by
  apply Nat.eq_of_testBit_eq
  intro i
  have t1 := congrArg (fun x => x.testBit i) h1
  have t2 := congrArg (fun x => x.testBit i) h2
  simp only [Nat.testBit_and, Nat.testBit_or] at t1 t2 ⊢
  revert t1 t2
  cases a.testBit i <;> cases b.testBit i <;> cases c.testBit i <;>
    cases d.testBit i <;> simp

theorem land_shiftLeft_high {s v : Nat} (hs : s < 2 ^ 32) :
    s &&& (v <<< 32) = 0 := by
  apply Nat.eq_of_testBit_eq
  intro i
  simp only [Nat.testBit_and, Nat.testBit_shiftLeft, Nat.zero_testBit]
  by_cases h : 32 ≤ i
  · have : s.testBit i = false := by
      refine Nat.testBit_lt_two_pow (lt_of_lt_of_le hs ?_)
      exact Nat.pow_le_pow_right (by omega) h
    simp [this]
  · simp [h]

theorem lor_shiftLeft_shiftRight {bm v : Nat} (h : bm < 2 ^ 32) :
    (bm ||| v <<< 32) >>> 32 = v := by
  apply Nat.eq_of_testBit_eq
  intro i
  simp only [Nat.testBit_shiftRight, Nat.testBit_or, Nat.testBit_shiftLeft]
  have hb : bm.testBit (32 + i) = false := by
    refine Nat.testBit_lt_two_pow (lt_of_lt_of_le h ?_)
    exact Nat.pow_le_pow_right (by omega) (by omega)
  have h32 : 32 ≤ 32 + i := by omega
  simp [hb, h32]

/-! ### readconnroute: router options and the role filter -/

/-- Router options recognised by `configureInstance`. Unsupported option
strings make `configureInstance` fail without storing a filter, so only the
five recognised options are modelled. -/
inductive RouterOption
  | master
  | slave
  | running
  | synced
  | ndb
deriving DecidableEq

/-- Per-option contribution to `(bitmask, bitvalue)` in `configureInstance`. -/
def optionBits : RouterOption → Nat × Nat
  | .master => (SERVER_MASTER ||| SERVER_SLAVE, SERVER_MASTER)
  | .slave => (SERVER_MASTER ||| SERVER_SLAVE, SERVER_SLAVE)
  | .running => (SERVER_RUNNING, SERVER_RUNNING)
  | .synced => (SERVER_JOINED, SERVER_JOINED)
  | .ndb => (SERVER_NDB, SERVER_NDB)

/-- The `(bitmask, bitvalue)` accumulation of `configureInstance`, with the
default RUNNING-only filter when no option is given. -/
def configureBits (opts : List RouterOption) : Nat × Nat :=
  let bits := opts.foldl
    (fun acc o => (acc.1 ||| (optionBits o).1, acc.2 ||| (optionBits o).2)) (0, 0)
  if bits.1 = 0 ∧ bits.2 = 0 then (SERVER_RUNNING, SERVER_RUNNING) else bits

/-- The packed word `bitmask | (bitvalue << 32)` stored atomically in
`inst->bitmask_and_bitvalue`. -/
def bitmaskAndBitvalue (opts : List RouterOption) : Nat :=
  (configureBits opts).1 ||| ((configureBits opts).2 <<< 32)

/-- `client_rses->bitmask`: in `newSession` the whole packed word is stored. -/
def sessionBitmask (opts : List RouterOption) : Nat :=
  bitmaskAndBitvalue opts

/-- `client_rses->bitvalue = mask >> 32` in `newSession`. -/
def sessionBitvalue (opts : List RouterOption) : Nat :=
  bitmaskAndBitvalue opts >>> 32

/-- The role filter applied to one backend inside `newSession`'s loop:
`server_is_running(ref->server) && (ref->server->status & bitmask & bitvalue)`. -/
def passesRoleFilter (status bitmask bitvalue : Nat) : Bool :=
  server_is_running status && decide (status &&& bitmask &&& bitvalue ≠ 0)

theorem configureBits_foldl_invariant (opts : List RouterOption) :
    (configureBits opts).1 < 2 ^ 7 ∧ (configureBits opts).2 < 2 ^ 7 ∧
      (configureBits opts).1 &&& (configureBits opts).2 = (configureBits opts).2 := by
  have step : ∀ (l : List RouterOption) (acc : Nat × Nat),
      acc.1 < 2 ^ 7 → acc.2 < 2 ^ 7 → acc.1 &&& acc.2 = acc.2 →
      (l.foldl (fun acc o => (acc.1 ||| (optionBits o).1, acc.2 ||| (optionBits o).2)) acc).1 < 2 ^ 7 ∧
      (l.foldl (fun acc o => (acc.1 ||| (optionBits o).1, acc.2 ||| (optionBits o).2)) acc).2 < 2 ^ 7 ∧
      (l.foldl (fun acc o => (acc.1 ||| (optionBits o).1, acc.2 ||| (optionBits o).2)) acc).1 &&&
        (l.foldl (fun acc o => (acc.1 ||| (optionBits o).1, acc.2 ||| (optionBits o).2)) acc).2 =
        (l.foldl (fun acc o => (acc.1 ||| (optionBits o).1, acc.2 ||| (optionBits o).2)) acc).2 := by
    intro l
    induction l with
    | nil => intro acc h1 h2 h3; exact ⟨h1, h2, h3⟩
    | cons o rest ih =>
      intro acc h1 h2 h3
      refine ih _ ?_ ?_ ?_
      · exact Nat.or_lt_two_pow h1 (by cases o <;> decide)
      · exact Nat.or_lt_two_pow h2 (by cases o <;> decide)
      · exact land_or_subset h3 (by cases o <;> decide)
  unfold configureBits
  simp only
  split
  · refine ⟨by decide, by decide, by decide⟩
  · exact step opts (0, 0) (by decide) (by decide) (by decide)

/-! ### readconnroute: weighted candidate selection (newSession lines 356-379) -/

/-- One backend reference of the service, as the selection loop sees it. -/
structure ServerRef where
  active : Bool
  status : Nat
  weight : Nat
  connections : Nat
  lifeConnections : Nat
deriving DecidableEq

/-- The weighted load score `(connections + 1) * 1000 / weight` (integer
division, as in the C source). -/
def loadScore (r : ServerRef) : Nat :=
  (r.connections + 1) * 1000 / r.weight

/-- Candidate replacement test: the if/else chain of `newSession`.
`candidate = ref->weight ? ref : candidate` for the weight-0 branch, then
the strict score comparison, then the tie broken by fewer lifetime
connections (`server->stats.n_connections`). -/
def replacesCandidate (cand ref : ServerRef) : Bool :=
  if ref.weight = 0 ∨ cand.weight = 0 then decide (ref.weight ≠ 0)
  else if loadScore ref < loadScore cand then true
  else decide (loadScore ref = loadScore cand ∧
    ref.lifeConnections < cand.lifeConnections)

/-- One step of the candidate loop. -/
def pickCandidate (cand ref : ServerRef) : ServerRef :=
  if replacesCandidate cand ref then ref else cand

/-- The candidate after the loop has visited `rest`, starting from an
already-established candidate `cand` (the master/slave special cases have
already been applied, so every element is a filter-passing candidate). -/
def chooseFrom (cand : ServerRef) (rest : List ServerRef) : ServerRef :=
  rest.foldl pickCandidate cand

theorem pickCandidate_cases (cand ref : ServerRef) :
    pickCandidate cand ref = cand ∨ pickCandidate cand ref = ref := by
  unfold pickCandidate
  split <;> simp


theorem chooseFrom_mem (cand : ServerRef) (rest : List ServerRef) :
    chooseFrom cand rest ∈ cand :: rest := by
  induction rest generalizing cand with
  | nil => simp [chooseFrom]
  | cons r rs ih =>
    have h := ih (pickCandidate cand r)
    have hstep : chooseFrom cand (r :: rs) = chooseFrom (pickCandidate cand r) rs := rfl
    rw [hstep]
    rcases List.mem_cons.mp h with h2 | h2
    · rw [h2]
      rcases pickCandidate_cases cand r with h' | h' <;> rw [h'] <;> simp
    · exact List.mem_cons.mpr (Or.inr (List.mem_cons.mpr (Or.inr h2)))

/-- The preorder the loop minimises when all weights are positive. -/
def scoreLE (a b : ServerRef) : Prop :=
  loadScore a < loadScore b ∨
    (loadScore a = loadScore b ∧ a.lifeConnections ≤ b.lifeConnections)

theorem scoreLE_refl (a : ServerRef) : scoreLE a a :=
  Or.inr ⟨rfl, le_refl _⟩

theorem scoreLE_trans {a b c : ServerRef} (h1 : scoreLE a b) (h2 : scoreLE b c) :
    scoreLE a c := by
  unfold scoreLE at h1 h2 ⊢
  rcases h1 with h1 | ⟨h1, h1'⟩ <;> rcases h2 with h2 | ⟨h2, h2'⟩
  · exact Or.inl (by omega)
  · exact Or.inl (by omega)
  · exact Or.inl (by omega)
  · exact Or.inr ⟨by omega, by omega⟩

theorem pickCandidate_le_both {cand ref : ServerRef}
    (hc : 0 < cand.weight) (hr : 0 < ref.weight) :
    scoreLE (pickCandidate cand ref) cand ∧ scoreLE (pickCandidate cand ref) ref := by
  have hw : ¬ (ref.weight = 0 ∨ cand.weight = 0) := by omega
  by_cases hlt : loadScore ref < loadScore cand
  · have heq : pickCandidate cand ref = ref := by
      simp [pickCandidate, replacesCandidate, hw, hlt]
    rw [heq]
    exact ⟨Or.inl hlt, scoreLE_refl ref⟩
  · by_cases htie : loadScore ref = loadScore cand ∧
        ref.lifeConnections < cand.lifeConnections
    · have heq : pickCandidate cand ref = ref := by
        simp [pickCandidate, replacesCandidate, hw, hlt, htie]
      rw [heq]
      exact ⟨Or.inr ⟨htie.1, le_of_lt htie.2⟩, scoreLE_refl ref⟩
    · have heq : pickCandidate cand ref = cand := by
        simp only [pickCandidate, replacesCandidate, if_neg hw, if_neg hlt]
        simp [htie]
      rw [heq]
      refine ⟨scoreLE_refl cand, ?_⟩
      rcases Nat.lt_or_ge (loadScore cand) (loadScore ref) with h | h
      · exact Or.inl h
      · have heq2 : loadScore cand = loadScore ref := by omega
        refine Or.inr ⟨heq2, ?_⟩
        by_contra hlife
        exact htie ⟨heq2.symm, by omega⟩

theorem chooseFrom_min (cand : ServerRef) (rest : List ServerRef)
    (hw : ∀ b ∈ cand :: rest, 0 < b.weight) :
    ∀ b ∈ cand :: rest, scoreLE (chooseFrom cand rest) b := by
  induction rest generalizing cand with
  | nil =>
    intro b hb
    simp only [List.mem_cons, List.not_mem_nil, or_false] at hb
    subst hb
    exact scoreLE_refl _
  | cons r rs ih =>
    have hc : 0 < cand.weight := hw cand (by simp)
    have hr : 0 < r.weight := hw r (by simp)
    have hpick := pickCandidate_le_both hc hr
    have hpw : 0 < (pickCandidate cand r).weight := by
      rcases pickCandidate_cases cand r with h | h <;> rw [h] <;> assumption
    have hw' : ∀ b ∈ pickCandidate cand r :: rs, 0 < b.weight := by
      intro b hb
      rcases List.mem_cons.mp hb with hb | hb
      · exact hb ▸ hpw
      · exact hw b (by simp [hb])
    have ihp := ih (pickCandidate cand r) hw'
    intro b hb
    have hstep : chooseFrom cand (r :: rs) = chooseFrom (pickCandidate cand r) rs := rfl
    rw [hstep]
    have hself := ihp (pickCandidate cand r) (List.mem_cons_self _ _)
    rcases List.mem_cons.mp hb with hb | hb
    · subst hb
      exact scoreLE_trans hself hpick.1
    · rcases List.mem_cons.mp hb with hb | hb
      · subst hb
        exact scoreLE_trans hself hpick.2
      · exact ihp b (List.mem_cons.mpr (Or.inr hb))

theorem packed_filter_land {bm v s : Nat} (hv : v < 2 ^ 32) (hsub : bm &&& v = v) :
    s &&& (bm ||| v <<< 32) &&& v = s &&& v := by
  apply Nat.eq_of_testBit_eq
  intro i
  have hsub' := congrArg (fun x => x.testBit i) hsub
  simp only [Nat.testBit_and, Nat.testBit_or, Nat.testBit_shiftLeft] at hsub' ⊢
  by_cases h32 : 32 ≤ i
  · have hvi : v.testBit i = false :=
      Nat.testBit_lt_two_pow (lt_of_lt_of_le hv (Nat.pow_le_pow_right (by omega) h32))
    simp [hvi]
  · have hge : (decide (i ≥ 32)) = false := by
      simp [ge_iff_le, h32]
    rw [hge]
    revert hsub'
    cases s.testBit i <;> cases bm.testBit i <;> cases v.testBit i <;> simp

/-- C1 counterexample: under `router_options=slave` the role filter built by
`configureInstance` is `mask = MASTER|SLAVE`, `value = SLAVE`. A backend with
flags RUNNING|MASTER|SLAVE (a relay server) passes the filter the code
actually applies, yet `(flags & mask) == (mask & value)` is false for it, so
the claimed characterisation of candidacy does not hold. -/
theorem readconn_role_filter_claim_refuted :
    passesRoleFilter (SERVER_RUNNING ||| SERVER_MASTER ||| SERVER_SLAVE)
        (sessionBitmask [RouterOption.slave]) (sessionBitvalue [RouterOption.slave]) = true
    ∧ (SERVER_RUNNING ||| SERVER_MASTER ||| SERVER_SLAVE) &&& sessionBitmask [RouterOption.slave]
        ≠ sessionBitmask [RouterOption.slave] &&& sessionBitvalue [RouterOption.slave] := by
  decide

/-- C1 amended: for every option list and status word, a backend passes the
filter of `newSession` (applied through the packed session word) iff its
RUNNING bit is set and its flags share at least one bit with the configured
`bitvalue` — the code tests `(flags & mask & value) != 0`, not the equality
`(flags & mask) == (mask & value)`. -/
theorem readconn_role_filter_amended (opts : List RouterOption) (status : Nat) :
    passesRoleFilter status (sessionBitmask opts) (sessionBitvalue opts)
      = (server_is_running status &&
          decide (status &&& (configureBits opts).2 ≠ 0)) := by
  obtain ⟨hbm, hv, hsub⟩ := configureBits_foldl_invariant opts
  have hbm32 : (configureBits opts).1 < 2 ^ 32 := lt_of_lt_of_le hbm (by norm_num)
  have hv32 : (configureBits opts).2 < 2 ^ 32 := lt_of_lt_of_le hv (by norm_num)
  have hval : sessionBitvalue opts = (configureBits opts).2 :=
    lor_shiftLeft_shiftRight hbm32
  unfold passesRoleFilter sessionBitmask bitmaskAndBitvalue
  rw [hval, packed_filter_land hv32 hsub]

/-! ### C2 / C8: the weighted least-connections selection -/

/-- C2: among a non-empty candidate list whose members all have positive
weight, the selection loop returns a candidate minimising
`(connections + 1) * 1000 / weight`, with ties on that score broken by the
lower lifetime-session count; in particular S1(weight 2, 10 connections)
against S2(weight 1, 4 connections) selects S2, and once S2 has 9
connections S1 is selected. -/
theorem readconn_weighted_selection (c : ServerRef) (cs : List ServerRef)
    (hw : ∀ b ∈ c :: cs, 0 < b.weight) :
    (∀ b ∈ c :: cs,
        loadScore (chooseFrom c cs) ≤ loadScore b ∧
          (loadScore (chooseFrom c cs) = loadScore b →
            (chooseFrom c cs).lifeConnections ≤ b.lifeConnections))
    ∧ chooseFrom ⟨true, SERVER_RUNNING ||| SERVER_SLAVE, 2, 10, 5⟩
        [⟨true, SERVER_RUNNING ||| SERVER_SLAVE, 1, 4, 5⟩]
        = ⟨true, SERVER_RUNNING ||| SERVER_SLAVE, 1, 4, 5⟩
    ∧ chooseFrom ⟨true, SERVER_RUNNING ||| SERVER_SLAVE, 2, 10, 5⟩
        [⟨true, SERVER_RUNNING ||| SERVER_SLAVE, 1, 9, 5⟩]
        = ⟨true, SERVER_RUNNING ||| SERVER_SLAVE, 2, 10, 5⟩ := by
  refine ⟨?_, by decide, by decide⟩
  intro b hb
  have h := chooseFrom_min c cs hw b hb
  unfold scoreLE at h
  constructor
  · rcases h with h | ⟨h, _⟩ <;> omega
  · intro heq
    rcases h with h | ⟨_, h⟩
    · omega
    · exact h

/-- Closed witness for `readconn_weighted_selection` at the spec's two-slave
scenario. -/
theorem readconn_weighted_selection_witness :
    (∀ b ∈ (⟨true, SERVER_RUNNING ||| SERVER_SLAVE, 2, 10, 5⟩ : ServerRef) ::
        [⟨true, SERVER_RUNNING ||| SERVER_SLAVE, 1, 4, 5⟩], 0 < b.weight)
    ∧ chooseFrom ⟨true, SERVER_RUNNING ||| SERVER_SLAVE, 2, 10, 5⟩
        [⟨true, SERVER_RUNNING ||| SERVER_SLAVE, 1, 4, 5⟩]
        = ⟨true, SERVER_RUNNING ||| SERVER_SLAVE, 1, 4, 5⟩ :=
  ⟨by decide,
    (readconn_weighted_selection ⟨true, SERVER_RUNNING ||| SERVER_SLAVE, 2, 10, 5⟩
      [⟨true, SERVER_RUNNING ||| SERVER_SLAVE, 1, 4, 5⟩] (by decide)).2.1⟩

theorem pickCandidate_pos_weight {cand ref : ServerRef}
    (h : 0 < cand.weight ∨ 0 < ref.weight) :
    0 < (pickCandidate cand ref).weight := by
  by_cases hr : ref.weight = 0
  · have hc : 0 < cand.weight := by omega
    have heq : pickCandidate cand ref = cand := by
      simp [pickCandidate, replacesCandidate, hr]
    rw [heq]; exact hc
  · by_cases hc : cand.weight = 0
    · have heq : pickCandidate cand ref = ref := by
        simp [pickCandidate, replacesCandidate, hr, hc]
      rw [heq]; omega
    · rcases pickCandidate_cases cand ref with h' | h' <;> rw [h'] <;> omega

theorem chooseFrom_pos_weight_of_cand {cand : ServerRef} {rs : List ServerRef}
    (h : 0 < cand.weight) : 0 < (chooseFrom cand rs).weight := by
  induction rs generalizing cand with
  | nil => exact h
  | cons r rest ih =>
    exact ih (pickCandidate_pos_weight (Or.inl h))

/-- C8 counterexample: with two candidates of weight 0 the loop keeps the
first one inserted even though the second has the lower lifetime-session
count, so the claimed lowest-lifetime tie-break does not happen. -/
theorem readconn_zero_weight_claim_refuted :
    chooseFrom ⟨true, SERVER_RUNNING ||| SERVER_SLAVE, 0, 0, 10⟩
        [⟨true, SERVER_RUNNING ||| SERVER_SLAVE, 0, 0, 3⟩]
        = ⟨true, SERVER_RUNNING ||| SERVER_SLAVE, 0, 0, 10⟩
    ∧ (⟨true, SERVER_RUNNING ||| SERVER_SLAVE, 0, 0, 3⟩ : ServerRef).lifeConnections
        < (⟨true, SERVER_RUNNING ||| SERVER_SLAVE, 0, 0, 10⟩ : ServerRef).lifeConnections := by
  decide

/-- C8 amended: a weight-0 backend is never chosen while some candidate has
non-zero weight; when every candidate has weight 0 the selection is still
deterministic, but it is the first candidate in insertion order that is
chosen — the lifetime-session count is not consulted, because the weight-0
branch precedes both comparisons. -/
theorem readconn_zero_weight_amended (c : ServerRef) (cs : List ServerRef) :
    ((∃ b ∈ c :: cs, 0 < b.weight) → 0 < (chooseFrom c cs).weight)
    ∧ ((∀ b ∈ c :: cs, b.weight = 0) → chooseFrom c cs = c) := by
  constructor
  · intro hex
    induction cs generalizing c with
    | nil =>
      obtain ⟨b, hb, hbw⟩ := hex
      simp only [List.mem_cons, List.not_mem_nil, or_false] at hb
      subst hb
      exact hbw
    | cons r rs ih =>
      obtain ⟨b, hb, hbw⟩ := hex
      have hstep : chooseFrom c (r :: rs) = chooseFrom (pickCandidate c r) rs := rfl
      rw [hstep]
      rcases List.mem_cons.mp hb with hb | hb
      · subst hb
        exact chooseFrom_pos_weight_of_cand (pickCandidate_pos_weight (Or.inl hbw))
      · rcases List.mem_cons.mp hb with hb | hb
        · subst hb
          exact chooseFrom_pos_weight_of_cand (pickCandidate_pos_weight (Or.inr hbw))
        · exact ih (pickCandidate c r) ⟨b, List.mem_cons.mpr (Or.inr hb), hbw⟩
  · intro hall
    induction cs generalizing c with
    | nil => rfl
    | cons r rs ih =>
      have hr : r.weight = 0 := hall r (by simp)
      have heq : pickCandidate c r = c := by
        simp [pickCandidate, replacesCandidate, hr]
      have hstep : chooseFrom c (r :: rs) = chooseFrom (pickCandidate c r) rs := rfl
      rw [hstep, heq]
      refine ih c ?_
      intro b hb
      rcases List.mem_cons.mp hb with hb | hb
      · exact hall b (by simp [hb])
      · exact hall b (by simp [hb])

/-- Closed witness for `readconn_zero_weight_amended`: with weights 2 and 0
the weight-2 backend is chosen; with both weights 0 the first is chosen. -/
theorem readconn_zero_weight_amended_witness :
    (∃ b ∈ (⟨true, SERVER_RUNNING, 0, 0, 9⟩ : ServerRef) ::
        [⟨true, SERVER_RUNNING, 2, 0, 9⟩], 0 < b.weight)
    ∧ 0 < (chooseFrom ⟨true, SERVER_RUNNING, 0, 0, 9⟩
        [⟨true, SERVER_RUNNING, 2, 0, 9⟩]).weight :=
  ⟨⟨⟨true, SERVER_RUNNING, 2, 0, 9⟩, by decide, by decide⟩,
    (readconn_zero_weight_amended ⟨true, SERVER_RUNNING, 0, 0, 9⟩
      [⟨true, SERVER_RUNNING, 2, 0, 9⟩]).1
      ⟨⟨true, SERVER_RUNNING, 2, 0, 9⟩, by decide, by decide⟩⟩

/-! ### Monitor transition categories (monitor.cc, mon_get_event_type) -/

/-- The role-type bit set from monitor.cc line 146. -/
def server_type_bits : Nat :=
  SERVER_MASTER ||| SERVER_SLAVE ||| SERVER_JOINED ||| SERVER_NDB

/-- The masked bit set from monitor.cc lines 149-150. -/
def all_server_bits : Nat :=
  SERVER_RUNNING ||| SERVER_MAINT ||| SERVER_MASTER ||| SERVER_SLAVE
    ||| SERVER_JOINED ||| SERVER_NDB

/-- The intermediate general event classification of `mon_get_event_type`. -/
inductive GeneralEventType
  | downEvent
  | upEvent
  | lossEvent
  | newEvent
  | unsupportedEvent
deriving DecidableEq

/-- The monitor events of `mxs_monitor_event_t` reachable from
`mon_get_event_type`. -/
inductive MonitorEvent
  | undefinedEvent
  | masterDown
  | masterUp
  | slaveDown
  | slaveUp
  | serverDown
  | serverUp
  | syncedDown
  | syncedUp
  | ndbDown
  | ndbUp
  | lostMaster
  | lostSlave
  | lostSynced
  | lostNdb
  | newMaster
  | newSlave
  | newSynced
  | newNdb
deriving DecidableEq

/-- First stage of `mon_get_event_type`: classify the difference between the
masked previous and current status words. -/
def generalEventType (prevRaw presentRaw : Nat) : GeneralEventType :=
  let prev := prevRaw &&& all_server_bits
  let present := presentRaw &&& all_server_bits
  if prev &&& SERVER_RUNNING = 0 then
    if present &&& SERVER_RUNNING ≠ 0 then .upEvent else .unsupportedEvent
  else
    if present &&& SERVER_RUNNING = 0 then .downEvent
    else
      let prev_bits := prev &&& (SERVER_MASTER ||| SERVER_SLAVE)
      let present_bits := present &&& (SERVER_MASTER ||| SERVER_SLAVE)
      if (prev_bits = 0 ∨ present_bits = 0 ∨ prev_bits = present_bits)
          ∧ prev &&& server_type_bits ≠ 0 then
        .lossEvent
      else
        .newEvent

/-- `mon_get_event_type`: the flavored monitor event computed from the
previous and current status words. `prev == present` is the asserted
impossible case and yields UNDEFINED_EVENT, as does the
not-running-to-not-running branch. -/
def monGetEventType (prevRaw presentRaw : Nat) : MonitorEvent :=
  let prev := prevRaw &&& all_server_bits
  let present := presentRaw &&& all_server_bits
  if prev = present then .undefinedEvent
  else
    match generalEventType prevRaw presentRaw with
    | .upEvent =>
      if present &&& SERVER_MASTER ≠ 0 then .masterUp
      else if present &&& SERVER_SLAVE ≠ 0 then .slaveUp
      else if present &&& SERVER_JOINED ≠ 0 then .syncedUp
      else if present &&& SERVER_NDB ≠ 0 then .ndbUp
      else .serverUp
    | .downEvent =>
      if prev &&& SERVER_MASTER ≠ 0 then .masterDown
      else if prev &&& SERVER_SLAVE ≠ 0 then .slaveDown
      else if prev &&& SERVER_JOINED ≠ 0 then .syncedDown
      else if prev &&& SERVER_NDB ≠ 0 then .ndbDown
      else .serverDown
    | .lossEvent =>
      if prev &&& SERVER_MASTER ≠ 0 then .lostMaster
      else if prev &&& SERVER_SLAVE ≠ 0 then .lostSlave
      else if prev &&& SERVER_JOINED ≠ 0 then .lostSynced
      else if prev &&& SERVER_NDB ≠ 0 then .lostNdb
      else .undefinedEvent
    | .newEvent =>
      if present &&& SERVER_MASTER ≠ 0 then .newMaster
      else if present &&& SERVER_SLAVE ≠ 0 then .newSlave
      else if present &&& SERVER_JOINED ≠ 0 then .newSynced
      else if present &&& SERVER_NDB ≠ 0 then .newNdb
      else .undefinedEvent
    | .unsupportedEvent => .undefinedEvent

/-- True on the four LOST events. -/
def MonitorEvent.isLoss : MonitorEvent → Bool
  | .lostMaster | .lostSlave | .lostSynced | .lostNdb => true
  | _ => false

/-- True on the four NEW events. -/
def MonitorEvent.isNew : MonitorEvent → Bool
  | .newMaster | .newSlave | .newSynced | .newNdb => true
  | _ => false

theorem monGetEventType_mask (p c : Nat) :
    monGetEventType (p &&& all_server_bits) (c &&& all_server_bits)
      = monGetEventType p c := by
  have hm : ∀ x : Nat, (x &&& all_server_bits) &&& all_server_bits = x &&& all_server_bits := by
    intro x
    apply Nat.eq_of_testBit_eq
    intro i
    simp only [Nat.testBit_and]
    cases x.testBit i <;> cases all_server_bits.testBit i <;> simp
  unfold monGetEventType generalEventType
  rw [hm p, hm c]

/-- The condition under which the both-running branch computes LOSS:
previous flags contain some role-type bit, and the master/slave bits are
absent on either side or unchanged. -/
def monitorLossCond (p c : Nat) : Prop :=
  p &&& server_type_bits ≠ 0 ∧
    (p &&& (SERVER_MASTER ||| SERVER_SLAVE) = 0 ∨
      c &&& (SERVER_MASTER ||| SERVER_SLAVE) = 0 ∨
      p &&& (SERVER_MASTER ||| SERVER_SLAVE) = c &&& (SERVER_MASTER ||| SERVER_SLAVE))

instance (p c : Nat) : Decidable (monitorLossCond p c) := by
  unfold monitorLossCond
  exact inferInstance

/-- Boolean form of the both-running transition classification over the
masked flag words, checked for all of them. -/
def monitorTransitionCheck (pRaw cRaw : Nat) : Bool :=
  let p := pRaw &&& all_server_bits
  let c := cRaw &&& all_server_bits
  !(decide (p &&& SERVER_RUNNING ≠ 0) && decide (c &&& SERVER_RUNNING ≠ 0)
      && decide (p ≠ c))
    || ((monGetEventType pRaw cRaw).isLoss == decide (monitorLossCond p c)
      && ((monGetEventType pRaw cRaw).isNew
        == (!decide (monitorLossCond p c) && decide (c &&& server_type_bits ≠ 0))))

set_option maxRecDepth 40000 in
theorem monitor_transition_bounded :
    ∀ p < 124, ∀ c < 124, monitorTransitionCheck p c = true := by
  have h : ((List.range 124).all fun p => (List.range 124).all fun c =>
      monitorTransitionCheck p c) = true := by rfl
  simp only [List.all_eq_true, List.mem_range] at h
  intro p hp c hc
  exact h p hp c hc

theorem land_mask_idem (x m : Nat) : (x &&& m) &&& m = x &&& m := by
  apply Nat.eq_of_testBit_eq
  intro i
  simp only [Nat.testBit_and]
  cases x.testBit i <;> cases m.testBit i <;> simp

/-- C3 counterexample: with P = RUNNING|MASTER and C = RUNNING|SLAVE, both
sides are RUNNING and differ, P has a role bit and the role bits changed
rather than being unchanged or cleared, so the claim classifies the
transition as neither NEW nor LOSS; the code computes NEW (flavored SLAVE). -/
theorem monitor_transition_claim_refuted :
    monGetEventType (SERVER_RUNNING ||| SERVER_MASTER) (SERVER_RUNNING ||| SERVER_SLAVE)
      = MonitorEvent.newSlave
    ∧ (SERVER_RUNNING ||| SERVER_MASTER) &&& server_type_bits ≠ 0
    ∧ (SERVER_RUNNING ||| SERVER_MASTER) &&& (SERVER_MASTER ||| SERVER_SLAVE)
        ≠ (SERVER_RUNNING ||| SERVER_SLAVE) &&& (SERVER_MASTER ||| SERVER_SLAVE) := by
  decide

/-- C3 amended: when both masked words are RUNNING and differ, the category
is LOSS exactly when P has a role-type bit and the MASTER/SLAVE bits are
absent on either side or unchanged; otherwise the category is NEW, flavored
by a role bit of C (in particular NEW also fires when both sides carry
master/slave bits that differ, e.g. MASTER to SLAVE). -/
theorem monitor_transition_amended (prev present : Nat)
    (hr1 : (prev &&& all_server_bits) &&& SERVER_RUNNING ≠ 0)
    (hr2 : (present &&& all_server_bits) &&& SERVER_RUNNING ≠ 0)
    (hne : prev &&& all_server_bits ≠ present &&& all_server_bits) :
    ((monGetEventType prev present).isLoss = true ↔
      monitorLossCond (prev &&& all_server_bits) (present &&& all_server_bits))
    ∧ ((monGetEventType prev present).isNew = true ↔
      (¬ monitorLossCond (prev &&& all_server_bits) (present &&& all_server_bits)
        ∧ (present &&& all_server_bits) &&& server_type_bits ≠ 0)) := by
  have hb1 : prev &&& all_server_bits < 124 :=
    lt_of_le_of_lt Nat.and_le_right (by decide)
  have hb2 : present &&& all_server_bits < 124 :=
    lt_of_le_of_lt Nat.and_le_right (by decide)
  have h := monitor_transition_bounded (prev &&& all_server_bits) hb1
    (present &&& all_server_bits) hb2
  simp only [monitorTransitionCheck, land_mask_idem, monGetEventType_mask] at h
  simp only [Bool.or_eq_true, Bool.not_eq_true', Bool.and_eq_true, beq_iff_eq,
    decide_eq_true_eq] at h
  rcases h with h | h
  · rw [Bool.and_eq_false_iff, Bool.and_eq_false_iff] at h
    rcases h with (h | h) | h <;> simp only [decide_eq_false_iff_not, not_not] at h
    · exact absurd h hr1
    · exact absurd h hr2
    · exact absurd h hne
  · obtain ⟨hL, hN⟩ := h
    constructor
    · rw [hL]
      simp
    · rw [hN]
      simp

/-- Closed witness for `monitor_transition_amended`: a RUNNING|MASTER server
that stays RUNNING with all role bits cleared is classified as a LOSS. -/
theorem monitor_transition_amended_witness :
    ((SERVER_RUNNING ||| SERVER_MASTER) &&& all_server_bits) &&& SERVER_RUNNING ≠ 0
    ∧ (SERVER_RUNNING &&& all_server_bits) &&& SERVER_RUNNING ≠ 0
    ∧ (SERVER_RUNNING ||| SERVER_MASTER) &&& all_server_bits
        ≠ SERVER_RUNNING &&& all_server_bits
    ∧ ((monGetEventType (SERVER_RUNNING ||| SERVER_MASTER) SERVER_RUNNING).isLoss = true ↔
        monitorLossCond ((SERVER_RUNNING ||| SERVER_MASTER) &&& all_server_bits)
          (SERVER_RUNNING &&& all_server_bits)) :=
  ⟨by decide, by decide, by decide,
    (monitor_transition_amended (SERVER_RUNNING ||| SERVER_MASTER) SERVER_RUNNING
      (by decide) (by decide) (by decide)).1⟩

/-! ### Monitor tick ordering (MonitorWorker::run_one_tick) -/

/-- The statements of `MonitorWorker::run_one_tick`, one constructor per
call, in source terms: drain admin requests, run the probe `tick()`,
increment `m_ticks`, copy pending status to the published server status,
detect and dispatch transitions, hang up failed servers, store the journal. -/
inductive TickStep
  | checkMaintenanceRequests
  | tickProbe
  | incrementTickCounter
  | flushServerStatus
  | processStateChanges
  | hangupFailedServers
  | storeServerJournal
deriving DecidableEq

/-- The body of `run_one_tick` in program order (monitor.cc lines 2899-2912). -/
def runOneTickSteps : List TickStep :=
  [.checkMaintenanceRequests, .tickProbe, .incrementTickCounter,
   .flushServerStatus, .processStateChanges, .hangupFailedServers,
   .storeServerJournal]

/-- C4 counterexample: within `run_one_tick` the tick counter is incremented
strictly before `flush_server_status()` publishes the tick's role-flag
state, so the publication cannot become visible before the counter
increment even under sequential execution: a reader that observes tick N
has not necessarily observed the state written in tick N. -/
theorem monitor_tick_order_claim_refuted :
    TickStep.incrementTickCounter ∈ runOneTickSteps
    ∧ TickStep.flushServerStatus ∈ runOneTickSteps
    ∧ runOneTickSteps.indexOf TickStep.incrementTickCounter
        < runOneTickSteps.indexOf TickStep.flushServerStatus := by
  decide

/-- C4 amended: the tick counter is incremented (with relaxed ordering)
immediately after the probing `tick()` and before the tick's state is
published by `flush_server_status()`; transition dispatch, hangup of failed
servers and the journal write follow the publication. A reader that
observes tick count N is therefore only guaranteed the state of ticks
before N, not of tick N itself. -/
theorem monitor_tick_order_amended :
    runOneTickSteps.indexOf TickStep.checkMaintenanceRequests
        < runOneTickSteps.indexOf TickStep.tickProbe
    ∧ runOneTickSteps.indexOf TickStep.tickProbe
        < runOneTickSteps.indexOf TickStep.incrementTickCounter
    ∧ runOneTickSteps.indexOf TickStep.incrementTickCounter
        < runOneTickSteps.indexOf TickStep.flushServerStatus
    ∧ runOneTickSteps.indexOf TickStep.flushServerStatus
        < runOneTickSteps.indexOf TickStep.processStateChanges
    ∧ runOneTickSteps.indexOf TickStep.processStateChanges
        < runOneTickSteps.indexOf TickStep.hangupFailedServers
    ∧ runOneTickSteps.indexOf TickStep.hangupFailedServers
        < runOneTickSteps.indexOf TickStep.storeServerJournal := by
  decide

/-! ### Admin status requests (Monitor::set_server_status / clear_server_status) -/

/-- The per-server admin request slot values of `MXS_MONITORED_SERVER`. -/
inductive StatusRequest
  | noChange
  | maintOn
  | maintOff
  | drainOn
  | drainOff
deriving DecidableEq

/-- The monitor state machine. -/
inductive MonState
  | stopped
  | monRunning
deriving DecidableEq

/-- The error text `ERR_CANNOT_MODIFY` of monitor.cc. -/
def errCannotModify : String :=
  "The server is monitored, so only the maintenance status can be " ++
    "set/cleared manually. Status was not modified."

/-- The spec's rendering of the error message. -/
def specCannotModifyPhrase : String :=
  "the server is monitored, so only the maintenance status can be " ++
    "set/cleared manually"

/-- The observable outcome of one `set_server_status`/`clear_server_status`
call: the return value, any error message written to `errmsg_out`, whether
`WRN_REQUEST_OVERWRITTEN` was logged, and the resulting server status word,
request slot and early-wakeup flag. -/
structure AdminResult where
  written : Bool
  errmsg : Option String
  warnedOverwrite : Bool
  serverStatus : Nat
  statusRequest : StatusRequest
  checkStatusFlag : Bool
deriving DecidableEq

/-- `status & ~bit` on the status word, written without a two's-complement:
subtracting the common bits equals clearing them. -/
def clearStatusBits (status bit : Nat) : Nat :=
  status - (status &&& bit)

/-- `Monitor::set_server_status`. On a running monitor any bit outside
MAINT|BEING_DRAINED is rejected with `errCannotModify`; otherwise the
request slot is atomically exchanged and a warning is logged if the
previous request was unread. On a stopped monitor the bit is set directly. -/
def setServerStatus (mstate : MonState) (serverStatus : Nat)
    (request : StatusRequest) (bit : Nat) : AdminResult :=
  if mstate = .monRunning then
    if bit &&& (SERVER_MAINT ||| SERVER_BEING_DRAINED) ≠ bit then
      { written := false, errmsg := some errCannotModify, warnedOverwrite := false,
        serverStatus := serverStatus, statusRequest := request,
        checkStatusFlag := false }
    else
      { written := true, errmsg := none,
        warnedOverwrite := request ≠ .noChange,
        serverStatus := serverStatus,
        statusRequest := if bit &&& SERVER_MAINT ≠ 0 then .maintOn else .drainOn,
        checkStatusFlag := true }
  else
    { written := true, errmsg := none, warnedOverwrite := false,
      serverStatus := serverStatus ||| bit, statusRequest := request,
      checkStatusFlag := false }

/-- `Monitor::clear_server_status`, the clearing counterpart. -/
def clearServerStatus (mstate : MonState) (serverStatus : Nat)
    (request : StatusRequest) (bit : Nat) : AdminResult :=
  if mstate = .monRunning then
    if bit &&& (SERVER_MAINT ||| SERVER_BEING_DRAINED) ≠ bit then
      { written := false, errmsg := some errCannotModify, warnedOverwrite := false,
        serverStatus := serverStatus, statusRequest := request,
        checkStatusFlag := false }
    else
      { written := true, errmsg := none,
        warnedOverwrite := request ≠ .noChange,
        serverStatus := serverStatus,
        statusRequest := if bit &&& SERVER_MAINT ≠ 0 then .maintOff else .drainOff,
        checkStatusFlag := true }
  else
    { written := true, errmsg := none, warnedOverwrite := false,
      serverStatus := clearStatusBits serverStatus bit, statusRequest := request,
      checkStatusFlag := false }

/-- C9: on a running monitor, a set or clear of any bit outside the
maintenance/drain bits returns the monitored-server error (whose text is the
spec's phrase, capitalised, followed by one extra sentence) and leaves the status word and the
request slot unchanged; a maintenance/drain request written while a prior
request is unread overwrites the slot and logs the overwrite warning. -/
theorem monitor_admin_status_restriction
    (status : Nat) (request : StatusRequest) (bit : Nat)
    (hbit : bit &&& (SERVER_MAINT ||| SERVER_BEING_DRAINED) ≠ bit) :
    (setServerStatus .monRunning status request bit).errmsg = some errCannotModify
    ∧ (setServerStatus .monRunning status request bit).written = false
    ∧ (setServerStatus .monRunning status request bit).serverStatus = status
    ∧ (setServerStatus .monRunning status request bit).statusRequest = request
    ∧ (clearServerStatus .monRunning status request bit).errmsg = some errCannotModify
    ∧ (clearServerStatus .monRunning status request bit).written = false
    ∧ (clearServerStatus .monRunning status request bit).serverStatus = status
    ∧ (clearServerStatus .monRunning status request bit).statusRequest = request
    ∧ errCannotModify.data
        = 'T' :: (specCannotModifyPhrase.data.drop 1)
          ++ (". Status was not modified.").data
    ∧ (∀ bit2, bit2 &&& (SERVER_MAINT ||| SERVER_BEING_DRAINED) = bit2 →
        request ≠ .noChange →
        (setServerStatus .monRunning status request bit2).warnedOverwrite = true
        ∧ (setServerStatus .monRunning status request bit2).statusRequest
            = (if bit2 &&& SERVER_MAINT ≠ 0 then .maintOn else .drainOn)
        ∧ (clearServerStatus .monRunning status request bit2).warnedOverwrite = true
        ∧ (clearServerStatus .monRunning status request bit2).statusRequest
            = (if bit2 &&& SERVER_MAINT ≠ 0 then .maintOff else .drainOff)) := by
  refine ⟨?_, ?_, ?_, ?_, ?_, ?_, ?_, ?_, by decide, ?_⟩
  · simp [setServerStatus, hbit]
  · simp [setServerStatus, hbit]
  · simp [setServerStatus, hbit]
  · simp [setServerStatus, hbit]
  · simp [clearServerStatus, hbit]
  · simp [clearServerStatus, hbit]
  · simp [clearServerStatus, hbit]
  · simp [clearServerStatus, hbit]
  · intro bit2 hbit2 hreq
    refine ⟨?_, ?_, ?_, ?_⟩ <;> simp [setServerStatus, clearServerStatus, hbit2, hreq]

/-- Closed witness for `monitor_admin_status_restriction`: an attempt to set
the MASTER bit on a running monitor is rejected, and a MAINT_ON request over
an unread DRAIN_ON request warns and overwrites. -/
theorem monitor_admin_status_restriction_witness :
    SERVER_MASTER &&& (SERVER_MAINT ||| SERVER_BEING_DRAINED) ≠ SERVER_MASTER
    ∧ (setServerStatus .monRunning SERVER_RUNNING .drainOn SERVER_MASTER).errmsg
        = some errCannotModify :=
  ⟨by decide,
    (monitor_admin_status_restriction SERVER_RUNNING .drainOn SERVER_MASTER (by decide)).1⟩

/-! ### Replication stream processor (replicator.cc) -/

/-- The typed replication events `process_one_event` dispatches on. The
table descriptor built by `Table::open` is abstracted to a numeric id. -/
inductive RplEvent
  | gtidEvent (domain serverId seq : Nat)
  | xidEvent
  | tableMapEvent (tableId tbl : Nat)
  | queryEvent
  | writeRowsV1 (tableId : Nat)
  | updateRowsV1
  | deleteRowsV1
  | otherEvent
deriving DecidableEq

/-- The processor state of `Replicator::Imp`: whether `m_sql` holds a
connection, the committed cursor `m_gtid`, the in-flight id
`m_current_gtid`, and the table map `m_tables` (`none` models a
default-constructed null `unique_ptr` entry). -/
structure RepState where
  sqlConnected : Bool
  gtid : String
  currentGtid : String
  tables : List (Nat × Option Nat)
deriving DecidableEq

/-- Fresh processor state at stream start. -/
def initialRepState : RepState :=
  { sqlConnected := false, gtid := "", currentGtid := "", tables := [] }

/-- Lookup in the table map. -/
def mapFind (m : List (Nat × Option Nat)) (k : Nat) : Option (Option Nat) :=
  match m with
  | [] => none
  | (k', v) :: rest => if k = k' then some v else mapFind rest k

/-- `m_tables[id] = v`: replace the entry or append a new one. -/
def mapInsert (m : List (Nat × Option Nat)) (k : Nat) (v : Option Nat) :
    List (Nat × Option Nat) :=
  match m with
  | [] => [(k, v)]
  | (k', v') :: rest =>
    if k = k' then (k', v) :: rest else (k', v') :: mapInsert rest k v

/-- `<domain>-<source-id>-<sequence>` from `to_gtid_string`. -/
def toGtidString (domain serverId seq : Nat) : String :=
  toString domain ++ "-" ++ toString serverId ++ "-" ++ toString seq

/-- `Replicator::Imp::process_one_event`. `none` models undefined behaviour:
for WRITE_ROWS_EVENT_V1 the handler evaluates `m_tables[id]->enqueue(event)`
where `operator[]` default-constructs a null entry for an unmapped id and
the arrow then dereferences the null pointer; a QUERY event dereferences
every entry. A successful enqueue leaves the map unchanged. -/
def processOneEvent (s : RepState) : RplEvent → Option RepState
  | .gtidEvent d sid seq => some { s with currentGtid := toGtidString d sid seq }
  | .xidEvent => some { s with gtid := s.currentGtid }
  | .tableMapEvent id tbl => some { s with tables := mapInsert s.tables id (some tbl) }
  | .queryEvent =>
    if s.tables.all (fun e => e.2.isSome) then some s else none
  | .writeRowsV1 id =>
    match mapFind s.tables id with
    | some (some _) => some s
    | some none => none
    | none => none
  | .updateRowsV1 => some s
  | .deleteRowsV1 => some s
  | .otherEvent => some s

/-- Sequential processing of a list of events. -/
def processEvents (s : RepState) : List RplEvent → Option RepState
  | [] => some s
  | e :: rest =>
    match processOneEvent s e with
    | some s' => processEvents s' rest
    | none => none

/-- The `else` branch of the fetch in `process_events`: fetch returned no
event, so `m_sql.reset()` releases the connection — and nothing else. -/
def onFetchNoEvent (s : RepState) : RepState :=
  { s with sqlConnected := false }

/-- A successful `connect()` at the top of the next loop iteration: it
acquires a connection and resumes from the committed cursor; it touches no
other processor state. -/
def onReconnect (s : RepState) : RepState :=
  { s with sqlConnected := true }

/-- The `@slave_connect_state` session variable `connect()` sets, which
carries the resume position (the source wraps the value in single quotes). -/
def slaveConnectStateQuery (s : RepState) : String :=
  "SET @slave_connect_state=" ++ s.gtid

theorem mapFind_mapInsert (m : List (Nat × Option Nat)) (k k' : Nat) (v : Option Nat) :
    mapFind (mapInsert m k v) k' = if k' = k then some v else mapFind m k' := by
  induction m with
  | nil =>
    by_cases h : k' = k <;> simp [mapInsert, mapFind, h]
  | cons e rest ih =>
    obtain ⟨ek, ev⟩ := e
    by_cases hk : k = ek
    · subst hk
      by_cases h : k' = k <;> simp [mapInsert, mapFind, h]
    · by_cases h : k' = ek
      · subst h
        have : ¬ k' = k := fun hc => hk hc.symm
        simp [mapInsert, mapFind, hk, this]
      · simp [mapInsert, mapFind, hk, h, ih]

theorem processEvents_no_tableMap (id : Nat) (evs : List RplEvent) :
    ∀ s s' : RepState, processEvents s evs = some s' →
      (∀ tbl, RplEvent.tableMapEvent id tbl ∉ evs) →
      mapFind s.tables id = none → mapFind s'.tables id = none := by
  induction evs with
  | nil =>
    intro s s' h _ habs
    simp only [processEvents] at h
    cases h
    exact habs
  | cons e rest ih =>
    intro s s' h hno habs
    simp only [processEvents] at h
    cases he : processOneEvent s e with
    | none => rw [he] at h; cases h
    | some s1 =>
      rw [he] at h
      have hno' : ∀ tbl, RplEvent.tableMapEvent id tbl ∉ rest := by
        intro tbl hmem
        exact hno tbl (List.mem_cons.mpr (Or.inr hmem))
      refine ih s1 s' h hno' ?_
      cases e with
      | gtidEvent d sid seq => cases he; exact habs
      | xidEvent => cases he; exact habs
      | tableMapEvent id2 tbl =>
        have hne : id ≠ id2 := by
          intro hc
          exact hno tbl (by rw [hc]; exact List.mem_cons_self _ _)
        cases he
        simp only [mapFind_mapInsert, if_neg hne]
        exact habs
      | queryEvent =>
        simp only [processOneEvent] at he
        by_cases hall : s.tables.all (fun e => e.2.isSome)
        · rw [if_pos hall] at he; cases he; exact habs
        · rw [if_neg hall] at he; cases he
      | writeRowsV1 id2 =>
        simp only [processOneEvent] at he
        cases hf : mapFind s.tables id2 with
        | none => rw [hf] at he; cases he
        | some v =>
          cases v with
          | none => rw [hf] at he; cases he
          | some t => rw [hf] at he; cases he; exact habs
      | updateRowsV1 => cases he; exact habs
      | deleteRowsV1 => cases he; exact habs
      | otherEvent => cases he; exact habs

/-- C10: processing a WRITE_ROWS_EVENT_V1 is safe only when a TABLE_MAP
event with the same table-id was processed earlier in the session: from the
session-start state, if no such TABLE_MAP occurred, `m_tables[id]`
default-constructs a null entry that is immediately dereferenced (modelled
as `none`); conversely a mapped id makes the enqueue succeed, and a
TABLE_MAP installs exactly such a mapping. -/
theorem replicator_write_rows_requires_table_map :
    (∀ (evs : List RplEvent) (s : RepState) (id : Nat),
      processEvents initialRepState evs = some s →
      (∀ tbl, RplEvent.tableMapEvent id tbl ∉ evs) →
      processOneEvent s (.writeRowsV1 id) = none)
    ∧ (∀ (s : RepState) (id tbl : Nat),
      mapFind s.tables id = some (some tbl) →
      processOneEvent s (.writeRowsV1 id) = some s)
    ∧ (∀ (s s' : RepState) (id tbl : Nat),
      processOneEvent s (.tableMapEvent id tbl) = some s' →
      mapFind s'.tables id = some (some tbl)) := by
  refine ⟨?_, ?_, ?_⟩
  · intro evs s id h hno
    have habs : mapFind s.tables id = none :=
      processEvents_no_tableMap id evs initialRepState s h hno rfl
    simp only [processOneEvent, habs]
  · intro s id tbl h
    simp only [processOneEvent, h]
  · intro s s' id tbl h
    cases h
    simp [mapFind_mapInsert]

/-- Closed witness for `replicator_write_rows_requires_table_map`: after a
session carrying only a GTID event, a WRITE_ROWS for table-id 5 dereferences
a null table pointer. -/
theorem replicator_write_rows_requires_table_map_witness :
    processEvents initialRepState [RplEvent.gtidEvent 1 101 43]
        = some { sqlConnected := false, gtid := "", currentGtid := "1-101-43", tables := [] }
    ∧ processOneEvent
        { sqlConnected := false, gtid := "", currentGtid := "1-101-43", tables := [] }
        (.writeRowsV1 5) = none :=
  ⟨by decide,
    replicator_write_rows_requires_table_map.1 [RplEvent.gtidEvent 1 101 43]
      { sqlConnected := false, gtid := "", currentGtid := "1-101-43", tables := [] } 5
      (by decide) (by intro tbl h; simp at h)⟩

/-- C7 counterexample: at a state with committed cursor 1-101-42, in-flight
id 1-101-43 and one table-map entry, the release-and-reconnect path keeps
both the in-flight transaction-id and the table map: the committed cursor is
not the only processor state surviving the reconnect, and the in-flight id
is not discarded. -/
theorem replicator_reconnect_claim_refuted :
    (onReconnect (onFetchNoEvent
        { sqlConnected := true, gtid := "1-101-42", currentGtid := "1-101-43",
          tables := [(5, some 7)] })).currentGtid = "1-101-43"
    ∧ (onReconnect (onFetchNoEvent
        { sqlConnected := true, gtid := "1-101-42", currentGtid := "1-101-43",
          tables := [(5, some 7)] })).tables = [(5, some 7)]
    ∧ ("1-101-43" : String) ≠ "1-101-42" := by
  refine ⟨rfl, rfl, by decide⟩

/-- C7 amended: a fetch returning no event releases the connection and the
next loop iteration reconnects resuming from the committed cursor (via the
`@slave_connect_state` session variable), and the committed cursor is
preserved; however the in-flight transaction-id and the table map are
retained in memory across the reconnect rather than discarded — the
in-flight id is only overwritten by the next GTID event, and the table-map
entries persist. -/
theorem replicator_reconnect_amended (s : RepState) :
    (onFetchNoEvent s).sqlConnected = false
    ∧ (onFetchNoEvent s).gtid = s.gtid
    ∧ slaveConnectStateQuery (onFetchNoEvent s)
        = "SET @slave_connect_state=" ++ s.gtid
    ∧ (onReconnect (onFetchNoEvent s)).gtid = s.gtid
    ∧ (onReconnect (onFetchNoEvent s)).currentGtid = s.currentGtid
    ∧ (onReconnect (onFetchNoEvent s)).tables = s.tables
    ∧ (∀ d sid seq s',
        processOneEvent (onReconnect (onFetchNoEvent s)) (.gtidEvent d sid seq) = some s' →
        s'.currentGtid = toGtidString d sid seq) := by
  refine ⟨rfl, rfl, rfl, rfl, rfl, rfl, ?_⟩
  intro d sid seq s' h
  cases h
  rfl

/-- Closed witness for `replicator_reconnect_amended`: after a reconnect at
a concrete state, the next GTID event overwrites the retained in-flight id. -/
theorem replicator_reconnect_amended_witness :
    processOneEvent (onReconnect (onFetchNoEvent
        { sqlConnected := true, gtid := "1-101-42", currentGtid := "1-101-43",
          tables := [] }))
        (.gtidEvent 1 101 44)
      = some { sqlConnected := true, gtid := "1-101-42",
               currentGtid := toGtidString 1 101 44, tables := [] }
    ∧ ({ sqlConnected := true, gtid := "1-101-42",
         currentGtid := toGtidString 1 101 44, tables := [] } : RepState).currentGtid
        = toGtidString 1 101 44 :=
  ⟨rfl,
    (replicator_reconnect_amended
        { sqlConnected := true, gtid := "1-101-42", currentGtid := "1-101-43",
          tables := [] }).2.2.2.2.2.2 1 101 44 _ rfl⟩

/-! ### readconnroute: full session creation and termination (C5) -/

/-- The candidate step on indexed references: keep or replace, comparing the
underlying references. -/
def pickPair (cand : Option (Nat × ServerRef)) (ref : Nat × ServerRef) :
    Nat × ServerRef :=
  match cand with
  | none => ref
  | some c => if replacesCandidate c.2 ref.2 then ref else c

/-- `get_root_master`: the first active running non-maintenance MASTER of
strictly highest weight, found by iterating the reference list. -/
def getRootMasterAux : List ServerRef → Nat → Option (Nat × ServerRef) →
    Option (Nat × ServerRef)
  | [], _, acc => acc
  | r :: rs, i, acc =>
    getRootMasterAux rs (i + 1)
      (if r.active && server_is_master r.status then
        match acc with
        | none => some (i, r)
        | some m => if m.2.weight < r.weight then some (i, r) else some m
      else acc)

/-- `get_root_master` over the whole list. -/
def getRootMaster (servers : List ServerRef) : Option (Nat × ServerRef) :=
  getRootMasterAux servers 0 none

/-- The candidate loop of `newSession` (lines 315-381): skip inactive and
maintenance references, apply the role filter, the root-master special
cases (skip as slave / break as master / break with no candidate), and the
weighted comparison. -/
def selectLoopAux (mh : Option (Nat × ServerRef)) (bitmask bitvalue : Nat) :
    List ServerRef → Nat → Option (Nat × ServerRef) → Option (Nat × ServerRef)
  | [], _, cand => cand
  | r :: rs, i, cand =>
    if !r.active || server_is_in_maint r.status then
      selectLoopAux mh bitmask bitvalue rs (i + 1) cand
    else if passesRoleFilter r.status bitmask bitvalue then
      match mh with
      | some m =>
        if i = m.1 ∧ bitvalue &&& (SERVER_SLAVE ||| SERVER_MASTER) = SERVER_SLAVE then
          selectLoopAux mh bitmask bitvalue rs (i + 1) cand
        else if i = m.1 ∧ bitvalue = SERVER_MASTER then
          some m
        else
          selectLoopAux mh bitmask bitvalue rs (i + 1) (some (pickPair cand (i, r)))
      | none =>
        if bitvalue = SERVER_MASTER then
          none
        else
          selectLoopAux mh bitmask bitvalue rs (i + 1) (some (pickPair cand (i, r)))
    else
      selectLoopAux mh bitmask bitvalue rs (i + 1) cand

/-- The per-session router data kept by a client session. -/
structure RouterSession where
  backendIdx : Nat
  bitmask : Nat
  bitvalue : Nat
deriving DecidableEq

/-- `atomic_add(&candidate->connections, 1)` on the i-th reference. -/
def incConnAt : List ServerRef → Nat → List ServerRef
  | [], _ => []
  | r :: rs, 0 => { r with connections := r.connections + 1 } :: rs
  | r :: rs, i + 1 => r :: incConnAt rs i

/-- `atomic_add(&backend->connections, -1)` on the i-th reference. -/
def decConnAt : List ServerRef → Nat → List ServerRef
  | [], _ => []
  | r :: rs, 0 => { r with connections := r.connections - 1 } :: rs
  | r :: rs, i + 1 => r :: decConnAt rs i

/-- `newSession`: select a candidate, fall back to the root master
(extending the effective bitvalue with MASTER when the options asked for
slaves), open the backend connection, and only then bump the chosen
reference's connection counter. On any failure nothing is mutated. The
`connectOk` parameter stands for the outcome of `dcb_connect`. -/
def newSession (servers : List ServerRef) (bitmask bitvalue : Nat)
    (connectOk : Bool) : Option RouterSession × List ServerRef :=
  match selectLoopAux (getRootMaster servers) bitmask bitvalue servers 0 none with
  | some c =>
    if connectOk then (some ⟨c.1, bitmask, bitvalue⟩, incConnAt servers c.1)
    else (none, servers)
  | none =>
    match getRootMaster servers with
    | some m =>
      if connectOk then
        (some ⟨m.1, bitmask,
          if bitvalue &&& SERVER_SLAVE ≠ 0 then bitvalue ||| SERVER_MASTER
          else bitvalue⟩,
         incConnAt servers m.1)
      else (none, servers)
    | none => (none, servers)

/-- `freeSession`: decrement the chosen backend's connection counter once. -/
def freeSession (sess : RouterSession) (servers : List ServerRef) :
    List ServerRef :=
  decConnAt servers sess.backendIdx

theorem decConnAt_incConnAt (servers : List ServerRef) (i : Nat) :
    decConnAt (incConnAt servers i) i = servers := by
  induction servers generalizing i with
  | nil => cases i <;> rfl
  | cons r rs ih =>
    cases i with
    | zero => simp [incConnAt, decConnAt]
    | succ n => simp [incConnAt, decConnAt, ih]

theorem getRootMasterAux_valid {Q : Nat × ServerRef → Prop} :
    ∀ (rs : List ServerRef) (i : Nat) (acc : Option (Nat × ServerRef)),
      (∀ p, acc = some p → Q p) →
      (∀ j r, rs.get? j = some r → Q (i + j, r)) →
      ∀ p, getRootMasterAux rs i acc = some p → Q p := by
  intro rs
  induction rs with
  | nil =>
    intro i acc hacc _ p hp
    exact hacc p hp
  | cons r rest ih =>
    intro i acc hacc hidx p hp
    simp only [getRootMasterAux] at hp
    refine ih (i + 1) _ ?_ ?_ p hp
    · intro q hq
      by_cases hcond : (r.active && server_is_master r.status) = true
      · rw [if_pos hcond] at hq
        cases hacc' : acc with
        | none =>
          rw [hacc'] at hq
          simp only at hq
          cases hq
          have := hidx 0 r (by simp)
          simpa using this
        | some m =>
          rw [hacc'] at hq
          simp only at hq
          by_cases hw : m.2.weight < r.weight
          · rw [if_pos hw] at hq
            cases hq
            have := hidx 0 r (by simp)
            simpa using this
          · rw [if_neg hw] at hq
            cases hq
            exact hacc q hacc'
      · rw [if_neg hcond] at hq
        exact hacc q hq
    · intro j r' hr'
      have := hidx (j + 1) r' (by simpa using hr')
      have harith : i + (j + 1) = (i + 1) + j := by omega
      rw [harith] at this
      exact this

theorem selectLoopAux_valid {Q : Nat × ServerRef → Prop}
    (mh : Option (Nat × ServerRef)) (bitmask bitvalue : Nat)
    (hmh : ∀ p, mh = some p → Q p) :
    ∀ (rs : List ServerRef) (i : Nat) (cand : Option (Nat × ServerRef)),
      (∀ p, cand = some p → Q p) →
      (∀ j r, rs.get? j = some r → Q (i + j, r)) →
      ∀ p, selectLoopAux mh bitmask bitvalue rs i cand = some p → Q p := by
  rcases mh with _ | m
  all_goals
    intro rs
    induction rs with
    | nil =>
      intro i cand hcand _ p hp
      exact hcand p hp
    | cons r rest ih =>
      intro i cand hcand hidx p hp
      have hidx' : ∀ j r', rest.get? j = some r' → Q ((i + 1) + j, r') := by
        intro j r' hr'
        have hj := hidx (j + 1) r' (by simpa using hr')
        have harith : i + (j + 1) = (i + 1) + j := by omega
        rw [harith] at hj
        exact hj
      have hpickv : ∀ q, some (pickPair cand (i, r)) = some q → Q q := by
        intro q hq
        cases hq
        cases hcand' : cand with
        | none =>
          simp only [pickPair, hcand']
          have h0 := hidx 0 r (by simp)
          simpa using h0
        | some c =>
          simp only [pickPair, hcand']
          by_cases hrep : replacesCandidate c.2 (i, r).2 = true
          · rw [if_pos hrep]
            have h0 := hidx 0 r (by simp)
            simpa using h0
          · rw [if_neg hrep]
            exact hcand c hcand'
      simp only [selectLoopAux] at hp
      by_cases hskip : (!r.active || server_is_in_maint r.status) = true
      · rw [if_pos hskip] at hp
        exact ih (i + 1) cand hcand hidx' p hp
      · rw [if_neg hskip] at hp
        by_cases hfilt : passesRoleFilter r.status bitmask bitvalue = true
        · rw [if_pos hfilt] at hp
          first
          | (by_cases h3 : bitvalue = SERVER_MASTER
             · rw [if_pos h3] at hp
               cases hp
             · rw [if_neg h3] at hp
               exact ih (i + 1) _ hpickv hidx' p hp)
          | (by_cases h1 : i = m.1 ∧
                bitvalue &&& (SERVER_SLAVE ||| SERVER_MASTER) = SERVER_SLAVE
             · rw [if_pos h1] at hp
               exact ih (i + 1) cand hcand hidx' p hp
             · rw [if_neg h1] at hp
               by_cases h2 : i = m.1 ∧ bitvalue = SERVER_MASTER
               · rw [if_pos h2] at hp
                 cases hp
                 exact hmh _ rfl
               · rw [if_neg h2] at hp
                 exact ih (i + 1) _ hpickv hidx' p hp)
        · rw [if_neg hfilt] at hp
          exact ih (i + 1) cand hcand hidx' p hp

theorem getRootMaster_valid (servers : List ServerRef) (p : Nat × ServerRef)
    (hp : getRootMaster servers = some p) : servers.get? p.1 = some p.2 := by
  refine @getRootMasterAux_valid (fun q => servers.get? q.1 = some q.2)
    servers 0 none ?_ ?_ p hp
  · intro q hq
    cases hq
  · intro j r hr
    simpa using hr

theorem selectLoop_valid (servers : List ServerRef) (bitmask bitvalue : Nat)
    (p : Nat × ServerRef)
    (hp : selectLoopAux (getRootMaster servers) bitmask bitvalue servers 0 none
        = some p) :
    servers.get? p.1 = some p.2 := by
  refine @selectLoopAux_valid (fun q => servers.get? q.1 = some q.2)
    (getRootMaster servers) bitmask bitvalue ?_ servers 0 none ?_ ?_ p hp
  · intro q hq
    exact getRootMaster_valid servers q hq
  · intro q hq
    cases hq
  · intro j r hr
    simpa using hr

theorem get?_some_lt_length {l : List ServerRef} {i : Nat} {r : ServerRef}
    (h : l.get? i = some r) : i < l.length := by
  by_contra hlen
  rw [List.get?_eq_none.mpr (le_of_not_lt hlen)] at h
  cases h

/-- C5: a router session's backend connection counter is incremented exactly
once at session creation — only after the backend connection opened — and
decremented exactly once at session termination, restoring the original
counters; a creation that finds no eligible backend or fails to open the
connection changes no backend state. -/
theorem readconn_session_counter_balance
    (servers : List ServerRef) (bitmask bitvalue : Nat) (connectOk : Bool) :
    ((newSession servers bitmask bitvalue connectOk).1 = none →
      (newSession servers bitmask bitvalue connectOk).2 = servers)
    ∧ (∀ sess, (newSession servers bitmask bitvalue connectOk).1 = some sess →
        sess.backendIdx < servers.length
        ∧ (newSession servers bitmask bitvalue connectOk).2
            = incConnAt servers sess.backendIdx
        ∧ freeSession sess (newSession servers bitmask bitvalue connectOk).2
            = servers) := by
  cases hsel : selectLoopAux (getRootMaster servers) bitmask bitvalue servers 0 none with
  | some c =>
    have hvalid := selectLoop_valid servers bitmask bitvalue c hsel
    cases connectOk with
    | true =>
      have hns : newSession servers bitmask bitvalue true
          = (some ⟨c.1, bitmask, bitvalue⟩, incConnAt servers c.1) := by
        simp [newSession, hsel]
      rw [hns]
      refine ⟨by intro h; simp at h, ?_⟩
      intro sess hsess
      simp only at hsess
      cases hsess
      exact ⟨get?_some_lt_length hvalid, rfl, decConnAt_incConnAt servers c.1⟩
    | false =>
      have hns : newSession servers bitmask bitvalue false = (none, servers) := by
        simp [newSession, hsel]
      rw [hns]
      exact ⟨fun _ => rfl, fun sess hsess => by simp at hsess⟩
  | none =>
    cases hmh : getRootMaster servers with
    | some m =>
      have hvalid := getRootMaster_valid servers m hmh
      rw [hmh] at hsel
      cases connectOk with
      | true =>
        have hns : newSession servers bitmask bitvalue true
            = (some ⟨m.1, bitmask,
                if bitvalue &&& SERVER_SLAVE ≠ 0 then bitvalue ||| SERVER_MASTER
                else bitvalue⟩,
               incConnAt servers m.1) := by
          simp [newSession, hsel, hmh]
        rw [hns]
        refine ⟨by intro h; simp at h, ?_⟩
        intro sess hsess
        simp only at hsess
        cases hsess
        exact ⟨get?_some_lt_length hvalid, rfl, decConnAt_incConnAt servers m.1⟩
      | false =>
        have hns : newSession servers bitmask bitvalue false = (none, servers) := by
          simp [newSession, hsel, hmh]
        rw [hns]
        exact ⟨fun _ => rfl, fun sess hsess => by simp at hsess⟩
    | none =>
      rw [hmh] at hsel
      have hns : newSession servers bitmask bitvalue connectOk = (none, servers) := by
        simp [newSession, hsel, hmh]
      rw [hns]
      exact ⟨fun _ => rfl, fun sess hsess => by simp at hsess⟩

/-- Closed witness for `readconn_session_counter_balance` on a two-server
service: the session binds the less-loaded slave, its counter is bumped,
and the free restores the initial counters. -/
theorem readconn_session_counter_balance_witness :
    (newSession
        [⟨true, SERVER_RUNNING ||| SERVER_SLAVE, 1, 3, 0⟩,
         ⟨true, SERVER_RUNNING ||| SERVER_SLAVE, 1, 1, 0⟩]
        (SERVER_MASTER ||| SERVER_SLAVE) SERVER_SLAVE true).1
      = some ⟨1, SERVER_MASTER ||| SERVER_SLAVE, SERVER_SLAVE⟩
    ∧ (1 < ([⟨true, SERVER_RUNNING ||| SERVER_SLAVE, 1, 3, 0⟩,
         ⟨true, SERVER_RUNNING ||| SERVER_SLAVE, 1, 1, 0⟩] : List ServerRef).length
      ∧ (newSession
        [⟨true, SERVER_RUNNING ||| SERVER_SLAVE, 1, 3, 0⟩,
         ⟨true, SERVER_RUNNING ||| SERVER_SLAVE, 1, 1, 0⟩]
        (SERVER_MASTER ||| SERVER_SLAVE) SERVER_SLAVE true).2
        = incConnAt
          [⟨true, SERVER_RUNNING ||| SERVER_SLAVE, 1, 3, 0⟩,
           ⟨true, SERVER_RUNNING ||| SERVER_SLAVE, 1, 1, 0⟩] 1
      ∧ freeSession ⟨1, SERVER_MASTER ||| SERVER_SLAVE, SERVER_SLAVE⟩
          (newSession
            [⟨true, SERVER_RUNNING ||| SERVER_SLAVE, 1, 3, 0⟩,
             ⟨true, SERVER_RUNNING ||| SERVER_SLAVE, 1, 1, 0⟩]
            (SERVER_MASTER ||| SERVER_SLAVE) SERVER_SLAVE true).2
        = [⟨true, SERVER_RUNNING ||| SERVER_SLAVE, 1, 3, 0⟩,
           ⟨true, SERVER_RUNNING ||| SERVER_SLAVE, 1, 1, 0⟩]) :=
  ⟨by decide,
    (readconn_session_counter_balance
        [⟨true, SERVER_RUNNING ||| SERVER_SLAVE, 1, 3, 0⟩,
         ⟨true, SERVER_RUNNING ||| SERVER_SLAVE, 1, 1, 0⟩]
        (SERVER_MASTER ||| SERVER_SLAVE) SERVER_SLAVE true).2
      ⟨1, SERVER_MASTER ||| SERVER_SLAVE, SERVER_SLAVE⟩ (by decide)⟩

/-! ### Journal store (monitor.cc: store_data / load_server_journal) -/

/-- Journal constants of monitor.cc. -/
def MMB_SCHEMA_VERSION : Nat := 2

/-- Little-endian encoding of `v` on `k` bytes (`mxs_set_byte4`,
`maxscale::set_byteN`). -/
def leBytes : Nat → Nat → List Nat
  | 0, _ => []
  | k + 1, v => (v % 256) :: leBytes k (v / 256)

/-- Little-endian decoding of a byte list (`mxs_get_byte4`,
`maxscale::get_byteN`). -/
def leValue : List Nat → Nat
  | [] => 0
  | b :: bs => b + 256 * leValue bs

theorem leBytes_length (k v : Nat) : (leBytes k v).length = k := by
  induction k generalizing v with
  | zero => rfl
  | succ n ih => simp [leBytes, ih]

theorem leValue_leBytes (k v : Nat) (h : v < 256 ^ k) :
    leValue (leBytes k v) = v := by
  induction k generalizing v with
  | zero =>
    simp only [Nat.pow_zero, Nat.lt_one_iff] at h
    simp [h, leBytes, leValue]
  | succ n ih =>
    have hdiv : v / 256 < 256 ^ n := by
      rw [Nat.div_lt_iff_lt_mul (by omega)]
      calc v < 256 ^ (n + 1) := h
      _ = 256 ^ n * 256 := by ring
    simp only [leBytes, leValue, ih (v / 256) hdiv]
    omega

/-- One step of the reflected CRC-32: shift out one bit, conditionally
xor-ing the reversed polynomial 0xEDB88320. -/
def crc32StepBit (c : Nat) : Nat :=
  if c % 2 = 1 then (c / 2) ^^^ 0xEDB88320 else c / 2

/-- Eight bit-steps make one byte step. -/
def crc32Byte (c : Nat) : Nat :=
  crc32StepBit (crc32StepBit (crc32StepBit (crc32StepBit
    (crc32StepBit (crc32StepBit (crc32StepBit (crc32StepBit c)))))))

/-- Feed one byte into the running CRC. -/
def crc32Update (c b : Nat) : Nat :=
  crc32Byte (c ^^^ b)

/-- `crc32(crc32(0L, NULL, 0), data, size)` of zlib over a byte list. -/
def crc32 (data : List Nat) : Nat :=
  (data.foldl crc32Update 0xFFFFFFFF) ^^^ 0xFFFFFFFF

theorem crc32StepBit_lt (c : Nat) (h : c < 2 ^ 32) : crc32StepBit c < 2 ^ 32 := by
  unfold crc32StepBit
  have hdiv : c / 2 < 2 ^ 32 := lt_of_le_of_lt (Nat.div_le_self c 2) h
  split
  · exact Nat.xor_lt_two_pow hdiv (by norm_num)
  · exact hdiv

theorem crc32Byte_lt (c : Nat) (h : c < 2 ^ 32) : crc32Byte c < 2 ^ 32 := by
  unfold crc32Byte
  iterate 8 apply crc32StepBit_lt
  exact h

theorem crc32Update_lt (c b : Nat) (hc : c < 2 ^ 32) (hb : b < 256) :
    crc32Update c b < 2 ^ 32 := by
  unfold crc32Update
  exact crc32Byte_lt _ (Nat.xor_lt_two_pow hc (lt_of_lt_of_le hb (by norm_num)))

theorem crc32_lt (data : List Nat) (hb : ∀ b ∈ data, b < 256) :
    crc32 data < 2 ^ 32 := by
  unfold crc32
  have hfold : ∀ (l : List Nat) (acc : Nat), acc < 2 ^ 32 → (∀ b ∈ l, b < 256) →
      l.foldl crc32Update acc < 2 ^ 32 := by
    intro l
    induction l with
    | nil => intro acc h _; exact h
    | cons b rest ih =>
      intro acc hacc hl
      exact ih _ (crc32Update_lt acc b hacc (hl b (by simp)))
        (fun x hx => hl x (by simp [hx]))
  exact Nat.xor_lt_two_pow (hfold data 0xFFFFFFFF (by norm_num) hb) (by norm_num)

/-- A monitored server as the journal sees it: its unique name (the bytes of
the NUL-terminated string, without the NUL) and its 8-byte status word. -/
structure JServer where
  name : List Nat
  status : Nat
deriving DecidableEq

/-- A type-1 record: `SVT_SERVER`, NUL-terminated name, 8-byte status. -/
def serverRecord (s : JServer) : List Nat :=
  1 :: (s.name ++ [0] ++ leBytes 8 s.status)

/-- A type-2 record: `SVT_MASTER`, NUL-terminated name. -/
def masterRecord (name : List Nat) : List Nat :=
  2 :: (name ++ [0])

/-- The trailing master record, absent when no root master exists. -/
def masterPart : Option JServer → List Nat
  | some m => masterRecord m.name
  | none => []

/-- The record region of the journal payload: all server records, then the
master record when a root master exists. -/
def journalRecords (servers : List JServer) (master : Option JServer) : List Nat :=
  (servers.map serverRecord).flatten ++ masterPart master

/-- `store_data`: 4-byte little-endian size, the schema byte, the records,
and the trailing CRC-32 over schema byte plus records. -/
def storeData (servers : List JServer) (master : Option JServer) : List Nat :=
  let payload := MMB_SCHEMA_VERSION :: journalRecords servers master
  leBytes 4 (payload.length + 4) ++ payload ++ leBytes 4 (crc32 payload)

/-- `process_server`: give the first monitored server whose name matches the
stored name the stored status; a name matching no server applies nothing. -/
def applyServer : List JServer → List Nat → Nat → List JServer
  | [], _, _ => []
  | s :: ss, nm, st =>
    if s.name = nm then { s with status := st } :: ss
    else s :: applyServer ss nm st

/-- `process_master`: point the master at the first server whose name
matches, keeping the previous pointer when none does. -/
def findMaster : List JServer → List Nat → Option JServer → Option JServer
  | [], _, acc => acc
  | s :: ss, nm, acc =>
    if s.name = nm then some s else findMaster ss nm acc

/-- The NUL test used when scanning a stored name. -/
def isNonZeroByte (b : Nat) : Bool :=
  b != 0

/-- `process_data_file`: walk the record region. Each iteration requires a
NUL terminator ahead, reads the type byte, and dispatches; an unknown type
is an error. The fuel argument bounds the number of records (the byte
region shrinks every round in the source). -/
def processRecords : Nat → List JServer → Option JServer → List Nat →
    Option (List JServer × Option JServer)
  | _, svs, mst, [] => some (svs, mst)
  | 0, _, _, _ :: _ => none
  | fuel + 1, svs, mst, t :: rest =>
    if (t :: rest).contains 0 then
      if t = 1 then
        let nm := rest.takeWhile isNonZeroByte
        let after := rest.drop (nm.length + 1)
        processRecords fuel (applyServer svs nm (leValue (after.take 8))) mst
          (after.drop 8)
      else if t = 2 then
        let nm := rest.takeWhile isNonZeroByte
        processRecords fuel svs (findMaster svs nm mst) (rest.drop (nm.length + 1))
      else none
    else none

/-- `load_server_journal`: read the 4-byte size, read `size` bytes, verify
the schema byte, verify the trailing CRC-32 against the payload, then apply
the records to the monitor's servers. Any mismatch applies nothing. -/
def loadServerJournal (file : List Nat) (servers : List JServer)
    (master : Option JServer) : Option (List JServer × Option JServer) :=
  if file.length < 4 then none
  else
    let size := leValue (file.take 4)
    let rest := file.drop 4
    if rest.length < size then none
    else
      let data := rest.take size
      match data with
      | [] => none
      | v :: body =>
        if v = MMB_SCHEMA_VERSION then
          if 4 ≤ data.length then
            if crc32 (data.take (data.length - 4))
                = leValue (data.drop (data.length - 4)) then
              processRecords body.length servers master
                ((data.take (data.length - 4)).drop 1)
            else none
          else none
        else none

theorem takeWhile_name_append (nm : List Nat) (tail : List Nat)
    (h : ∀ b ∈ nm, b ≠ 0) :
    (nm ++ 0 :: tail).takeWhile isNonZeroByte = nm := by
  rw [List.takeWhile_append_of_pos]
  · have h0 : ((0 : Nat) :: tail).takeWhile isNonZeroByte = [] := by
      simp [List.takeWhile, isNonZeroByte]
    rw [h0, List.append_nil]
  · intro a ha
    simpa [isNonZeroByte] using h a ha

theorem drop_name_append (nm : List Nat) (x : Nat) (tail : List Nat) :
    (nm ++ x :: tail).drop (nm.length + 1) = tail := by
  induction nm with
  | nil => simp
  | cons b bs ih => simp [ih]

theorem contains_zero_of_mem {l : List Nat} (h : (0 : Nat) ∈ l) :
    l.contains 0 = true :=
  List.elem_iff.mpr h

theorem processRecords_server_step (fuel : Nat) (svs : List JServer)
    (mst : Option JServer) (s : JServer) (tail : List Nat)
    (hname : ∀ b ∈ s.name, b ≠ 0) (hst : s.status < 2 ^ 64) :
    processRecords (fuel + 1) svs mst (serverRecord s ++ tail)
      = processRecords fuel (applyServer svs s.name s.status) mst tail := by
  have hshape : serverRecord s ++ tail
      = 1 :: (s.name ++ 0 :: (leBytes 8 s.status ++ tail)) := by
    simp [serverRecord]
  rw [hshape]
  have hzero : ((1 : Nat) :: (s.name ++ 0 :: (leBytes 8 s.status ++ tail))).contains 0
      = true :=
    contains_zero_of_mem (by simp)
  have htw : (s.name ++ 0 :: (leBytes 8 s.status ++ tail)).takeWhile
      isNonZeroByte = s.name := takeWhile_name_append _ _ hname
  have hdrop : (s.name ++ 0 :: (leBytes 8 s.status ++ tail)).drop
      (s.name.length + 1) = leBytes 8 s.status ++ tail := drop_name_append _ _ _
  have htake8 : (leBytes 8 s.status ++ tail).take 8 = leBytes 8 s.status :=
    List.take_left' (leBytes_length 8 s.status)
  have hdrop8 : (leBytes 8 s.status ++ tail).drop 8 = tail :=
    List.drop_left' (leBytes_length 8 s.status)
  have hval : leValue (leBytes 8 s.status) = s.status :=
    leValue_leBytes 8 s.status (by
      have h8 : (256 : Nat) ^ 8 = 2 ^ 64 := by norm_num
      omega)
  simp only [processRecords, hzero, if_pos rfl, htw, hdrop, htake8, hdrop8, hval,
    if_true]

theorem processRecords_master_step (fuel : Nat) (svs : List JServer)
    (mst : Option JServer) (nm : List Nat) (tail : List Nat)
    (hname : ∀ b ∈ nm, b ≠ 0) :
    processRecords (fuel + 1) svs mst (masterRecord nm ++ tail)
      = processRecords fuel svs (findMaster svs nm mst) tail := by
  have hshape : masterRecord nm ++ tail = 2 :: (nm ++ 0 :: tail) := by
    simp [masterRecord]
  rw [hshape]
  have hzero : ((2 : Nat) :: (nm ++ 0 :: tail)).contains 0 = true :=
    contains_zero_of_mem (by simp)
  have htw : (nm ++ 0 :: tail).takeWhile isNonZeroByte = nm :=
    takeWhile_name_append _ _ hname
  have hdrop : (nm ++ 0 :: tail).drop (nm.length + 1) = tail :=
    drop_name_append _ _ _
  simp only [processRecords, hzero, htw, hdrop, if_true]
  norm_num

theorem applyServer_append_not_mem (done l : List JServer) (nm : List Nat)
    (st : Nat) (h : nm ∉ done.map JServer.name) :
    applyServer (done ++ l) nm st = done ++ applyServer l nm st := by
  induction done with
  | nil => rfl
  | cons d ds ih =>
    have hd : d.name ≠ nm := by
      intro hc
      exact h (by simp [hc.symm])
    have hds : nm ∉ ds.map JServer.name := by
      intro hc
      exact h (by simp [hc])
    simp only [List.cons_append, applyServer, if_neg hd, List.append_eq, ih hds]

theorem applyServer_head_match (p : JServer) (ps : List JServer) (s : JServer)
    (h : p.name = s.name) :
    applyServer (p :: ps) s.name s.status = s :: ps := by
  cases p with
  | mk pn pst =>
    cases s with
    | mk sn sst =>
      have h' : pn = sn := h
      subst h'
      simp [applyServer]

theorem findMaster_mem (servers : List JServer) (m : JServer)
    (hm : m ∈ servers) (hnodup : (servers.map JServer.name).Nodup)
    (m0 : Option JServer) :
    findMaster servers m.name m0 = some m := by
  induction servers with
  | nil => cases hm
  | cons s ss ih =>
    rcases List.mem_cons.mp hm with hm' | hm'
    · subst hm'
      simp [findMaster]
    · have hne : s.name ≠ m.name := by
        intro hc
        have : m.name ∈ ss.map JServer.name := List.mem_map_of_mem _ hm'
        rw [← hc] at this
        exact (List.nodup_cons.mp (by simpa using hnodup)).1 this
      simp only [findMaster, if_neg hne]
      exact ih hm' (List.nodup_cons.mp (by simpa using hnodup)).2

theorem processRecords_servers (ss : List JServer) :
    ∀ (done pending : List JServer) (mst : Option JServer) (tail : List Nat)
      (f : Nat),
      pending.map JServer.name = ss.map JServer.name →
      (∀ s ∈ ss, s.name ∉ done.map JServer.name) →
      (ss.map JServer.name).Nodup →
      (∀ s ∈ ss, ∀ b ∈ s.name, b ≠ 0) →
      (∀ s ∈ ss, s.status < 2 ^ 64) →
      processRecords (f + ss.length) (done ++ pending) mst
          ((ss.map serverRecord).flatten ++ tail)
        = processRecords f (done ++ ss) mst tail := by
  induction ss with
  | nil =>
    intro done pending mst tail f hmap _ _ _ _
    have hpend : pending = [] := by
      cases pending with
      | nil => rfl
      | cons a b => simp at hmap
    subst hpend
    simp
  | cons s rest ih =>
    intro done pending mst tail f hmap hdisj hnodup hbytes hstatus
    cases pending with
    | nil => simp at hmap
    | cons p ps =>
      simp only [List.map_cons, List.cons.injEq] at hmap
      obtain ⟨hpname, hmap'⟩ := hmap
      have hflat : ((s :: rest).map serverRecord).flatten ++ tail
          = serverRecord s ++ ((rest.map serverRecord).flatten ++ tail) := by
        simp
      rw [hflat]
      have hlen : f + (s :: rest).length = (f + rest.length) + 1 := by
        simp [List.length_cons]
        omega
      rw [hlen]
      rw [processRecords_server_step (f + rest.length) (done ++ p :: ps) mst s
        ((rest.map serverRecord).flatten ++ tail)
        (hbytes s (by simp)) (hstatus s (by simp))]
      have hrw : applyServer (done ++ p :: ps) s.name s.status
          = (done ++ [s]) ++ ps := by
        rw [applyServer_append_not_mem done (p :: ps) s.name s.status
          (hdisj s (by simp))]
        rw [applyServer_head_match p ps s hpname]
        simp
      rw [hrw]
      have hdisj' : ∀ t ∈ rest, t.name ∉ (done ++ [s]).map JServer.name := by
        intro t ht
        simp only [List.map_append, List.mem_append, List.map_cons,
          List.map_nil, List.mem_cons, List.not_mem_nil, or_false]
        rintro (hc | hc)
        · exact hdisj t (by simp [ht]) hc
        · have : t.name ∈ rest.map JServer.name := List.mem_map_of_mem _ ht
          rw [hc] at this
          exact (List.nodup_cons.mp (by simpa using hnodup)).1 this
      have := ih (done ++ [s]) ps mst tail f hmap' hdisj'
        (List.nodup_cons.mp (by simpa using hnodup)).2
        (fun t ht b hb => hbytes t (by simp [ht]) b hb)
        (fun t ht => hstatus t (by simp [ht]))
      rw [this]
      simp

theorem leBytes_bytes_lt (k v : Nat) : ∀ b ∈ leBytes k v, b < 256 := by
  induction k generalizing v with
  | zero => intro b hb; cases hb
  | succ n ih =>
    intro b hb
    rcases List.mem_cons.mp hb with rfl | hb
    · exact Nat.mod_lt _ (by omega)
    · exact ih (v / 256) b hb

theorem journalRecords_bytes_lt (servers : List JServer) (master : Option JServer)
    (hb : ∀ s ∈ servers, ∀ b ∈ s.name, b < 256)
    (hm : ∀ m, master = some m → ∀ b ∈ m.name, b < 256) :
    ∀ b ∈ journalRecords servers master, b < 256 := by
  intro b hbmem
  unfold journalRecords at hbmem
  rcases List.mem_append.mp hbmem with h | h
  · rcases List.mem_flatten.mp h with ⟨rec, hrec, hbrec⟩
    rcases List.mem_map.mp hrec with ⟨s, hs, rfl⟩
    simp only [serverRecord, List.mem_cons, List.append_assoc, List.mem_append,
      List.mem_singleton] at hbrec
    rcases hbrec with rfl | hbn | (rfl | hfalse) | hbn
    · omega
    · exact hb s hs b hbn
    · omega
    · cases hfalse
    · exact leBytes_bytes_lt 8 _ b hbn
  · cases hmm : master with
    | none => rw [hmm] at h; cases h
    | some m =>
      rw [hmm] at h
      simp only [masterPart, masterRecord, List.mem_cons, List.mem_append,
        List.mem_singleton] at h
      rcases h with rfl | hbn | (rfl | hfalse)
      · omega
      · exact hm m hmm b hbn
      · omega
      · cases hfalse

theorem serverRecords_flatten_length (ss : List JServer) :
    ss.length ≤ ((ss.map serverRecord).flatten).length := by
  induction ss with
  | nil => simp
  | cons s rest ih =>
    simp only [List.map_cons, List.flatten_cons, List.length_append,
      List.length_cons]
    have h1 : 1 ≤ (serverRecord s).length := by simp [serverRecord]
    omega


theorem loadServerJournal_structure (recs : List Nat) (servers : List JServer)
    (m0 : Option JServer)
    (hb : ∀ b ∈ (MMB_SCHEMA_VERSION : Nat) :: recs, b < 256)
    (hsz : ((MMB_SCHEMA_VERSION : Nat) :: recs).length + 4 < 2 ^ 32) :
    loadServerJournal
      (leBytes 4 (((MMB_SCHEMA_VERSION : Nat) :: recs).length + 4)
        ++ (((MMB_SCHEMA_VERSION : Nat) :: recs)
          ++ leBytes 4 (crc32 ((MMB_SCHEMA_VERSION : Nat) :: recs))))
      servers m0
      = processRecords (recs.length + 4) servers m0 recs := by
  have h2564 : (256 : Nat) ^ 4 = 2 ^ 32 := by norm_num
  have hcrc : crc32 ((MMB_SCHEMA_VERSION : Nat) :: recs) < 2 ^ 32 := crc32_lt _ hb
  have hlen4a : (leBytes 4 (((MMB_SCHEMA_VERSION : Nat) :: recs).length + 4)).length = 4 :=
    leBytes_length _ _
  have hlen4c : (leBytes 4 (crc32 ((MMB_SCHEMA_VERSION : Nat) :: recs))).length = 4 :=
    leBytes_length _ _
  have htake4 : (leBytes 4 (((MMB_SCHEMA_VERSION : Nat) :: recs).length + 4)
      ++ (((MMB_SCHEMA_VERSION : Nat) :: recs)
        ++ leBytes 4 (crc32 ((MMB_SCHEMA_VERSION : Nat) :: recs)))).take 4
      = leBytes 4 (((MMB_SCHEMA_VERSION : Nat) :: recs).length + 4) :=
    List.take_left' hlen4a
  have hdrop4 : (leBytes 4 (((MMB_SCHEMA_VERSION : Nat) :: recs).length + 4)
      ++ (((MMB_SCHEMA_VERSION : Nat) :: recs)
        ++ leBytes 4 (crc32 ((MMB_SCHEMA_VERSION : Nat) :: recs)))).drop 4
      = ((MMB_SCHEMA_VERSION : Nat) :: recs)
        ++ leBytes 4 (crc32 ((MMB_SCHEMA_VERSION : Nat) :: recs)) :=
    List.drop_left' hlen4a
  have hsizeval : leValue (leBytes 4 (((MMB_SCHEMA_VERSION : Nat) :: recs).length + 4))
      = ((MMB_SCHEMA_VERSION : Nat) :: recs).length + 4 :=
    leValue_leBytes _ _ (by rw [h2564]; exact hsz)
  simp only [loadServerJournal, htake4, hdrop4, hsizeval]
  rw [if_neg (by simp only [List.length_append, hlen4a]; omega)]
  rw [if_neg (by simp only [List.length_append, List.length_cons, hlen4c]; omega)]
  have htakesize : (((MMB_SCHEMA_VERSION : Nat) :: recs)
      ++ leBytes 4 (crc32 ((MMB_SCHEMA_VERSION : Nat) :: recs))).take
        (((MMB_SCHEMA_VERSION : Nat) :: recs).length + 4)
      = ((MMB_SCHEMA_VERSION : Nat) :: recs)
        ++ leBytes 4 (crc32 ((MMB_SCHEMA_VERSION : Nat) :: recs)) := by
    rw [show ((MMB_SCHEMA_VERSION : Nat) :: recs).length + 4
        = (((MMB_SCHEMA_VERSION : Nat) :: recs)
          ++ leBytes 4 (crc32 ((MMB_SCHEMA_VERSION : Nat) :: recs))).length from by
      simp [hlen4c]]
    exact List.take_length _
  rw [htakesize, List.cons_append]
  simp only [List.length_cons, List.length_append, hlen4c]
  rw [if_pos trivial]
  rw [if_pos (by omega)]
  have harith : recs.length + 4 + 1 - 4 = recs.length + 1 := by omega
  rw [harith]
  rw [List.take_succ_cons, List.drop_succ_cons]
  rw [List.take_left' rfl, List.drop_left' rfl]
  rw [leValue_leBytes _ _ (by rw [h2564]; exact hcrc)]
  rw [if_pos rfl]
  rw [List.drop_succ_cons, List.drop_zero]

/-- C6: writing the journal for a valid monitor state and reading it back
restores exactly that state: the reader accepts the schema byte and the
CRC-32 and reinstates every named server's stored role flags and the master
pointer, for any initial statuses the monitor's servers had. -/
theorem journal_roundtrip
    (servers init : List JServer) (master m0 : Option JServer)
    (hnames : init.map JServer.name = servers.map JServer.name)
    (hnodup : (servers.map JServer.name).Nodup)
    (hbytes : ∀ s ∈ servers, ∀ b ∈ s.name, 0 < b ∧ b < 256)
    (hstatus : ∀ s ∈ servers, s.status < 2 ^ 64)
    (hmaster : ∀ m, master = some m → m ∈ servers)
    (hsz : ((MMB_SCHEMA_VERSION : Nat) :: journalRecords servers master).length + 4
        < 2 ^ 32) :
    loadServerJournal (storeData servers master) init m0
      = some (servers, master.elim m0 some) := by
  have hfile : storeData servers master
      = leBytes 4 (((MMB_SCHEMA_VERSION : Nat) :: journalRecords servers master).length + 4)
        ++ (((MMB_SCHEMA_VERSION : Nat) :: journalRecords servers master)
          ++ leBytes 4 (crc32 ((MMB_SCHEMA_VERSION : Nat) :: journalRecords servers master))) := by
    simp [storeData, List.append_assoc]
  have hpaybytes : ∀ b ∈ (MMB_SCHEMA_VERSION : Nat) :: journalRecords servers master,
      b < 256 := by
    intro b hbm
    rcases List.mem_cons.mp hbm with rfl | hbm
    · norm_num [MMB_SCHEMA_VERSION]
    · refine journalRecords_bytes_lt servers master ?_ ?_ b hbm
      · intro s hs b' hb'
        exact (hbytes s hs b' hb').2
      · intro m hm b' hb'
        exact (hbytes m (hmaster m hm) b' hb').2
  rw [hfile, loadServerJournal_structure _ _ _ hpaybytes hsz]
  have hge := serverRecords_flatten_length servers
  have hreclen : (journalRecords servers master).length
      = ((servers.map serverRecord).flatten).length + (masterPart master).length := by
    simp [journalRecords]
  have hsplit : (journalRecords servers master).length + 4
      = ((journalRecords servers master).length + 4 - servers.length)
        + servers.length := by
    omega
  rw [hsplit]
  have hrecs : journalRecords servers master
      = (servers.map serverRecord).flatten ++ masterPart master := rfl
  have hparse := processRecords_servers servers [] init m0 (masterPart master)
    ((journalRecords servers master).length + 4 - servers.length)
    hnames (by intro s _ h; simp at h) hnodup
    (fun s hs b hb => by
      have h0 := (hbytes s hs b hb).1
      omega)
    hstatus
  simp only [List.nil_append] at hparse
  rw [← hrecs] at hparse
  rw [hparse]
  cases hmm : master with
  | none =>
    simp [masterPart, processRecords, Option.elim]
  | some m =>
    rw [hmm] at hreclen
    have hf1 : (journalRecords servers (some m)).length + 4 - servers.length
        = ((journalRecords servers (some m)).length + 4 - servers.length - 1) + 1 := by
      have hge2 : servers.length ≤ (journalRecords servers (some m)).length := by
        rw [hreclen]
        omega
      omega
    rw [hf1]
    have hmp : masterPart (some m) = masterRecord m.name ++ ([] : List Nat) := by
      simp [masterPart]
    rw [hmp]
    rw [processRecords_master_step _ _ _ _ _
      (fun b hb => by
        have h0 := (hbytes m (hmaster m hmm) b hb).1
        omega)]
    rw [findMaster_mem servers m (hmaster m hmm) hnodup m0]
    simp [processRecords, Option.elim]

/-- Closed witness for `journal_roundtrip`: a two-server monitor with a
root master round-trips through the journal bytes, restoring statuses into
servers whose statuses had been zeroed. -/
theorem journal_roundtrip_witness :
    (([⟨[65], 0⟩, ⟨[66], 0⟩] : List JServer).map JServer.name
      = ([⟨[65], 9⟩, ⟨[66], 17⟩] : List JServer).map JServer.name)
    ∧ loadServerJournal
        (storeData [⟨[65], 9⟩, ⟨[66], 17⟩] (some ⟨[65], 9⟩))
        [⟨[65], 0⟩, ⟨[66], 0⟩] none
      = some ([⟨[65], 9⟩, ⟨[66], 17⟩], some ⟨[65], 9⟩) :=
  ⟨by decide, by
    have h := journal_roundtrip [⟨[65], 9⟩, ⟨[66], 17⟩] [⟨[65], 0⟩, ⟨[66], 0⟩]
      (some ⟨[65], 9⟩) none (by decide) (by decide) (by decide) (by decide)
      (by intro m hm; cases hm; exact List.mem_cons_self _ _) (by decide)
    simpa using h⟩
